import Mathlib

/-!
Shallow embedding of `src/lib.rs` (crate `characteristics_method`): a 1-D
wave-equation integrator using the method of characteristics, driven by a
`Renderer` struct.  `f64` values are modelled as exact rationals `ℚ`;
JavaScript callables (`RealFunction`) are modelled as Lean functions `ℚ → ℚ`.
`Vec<Cell<UDiffPairPoint>>` is modelled as `List UDiffPairPoint` (the interior
mutability of `Cell` is irrelevant: each step fully overwrites the scratch
buffer, asserted equal in length by the `debug_assert_eq!` in `next`).
Rendering (`render_canvas`), the wasm bindings and the allocator setup are out
of scope of the claims and are not embedded.
-/

/-- `const MIN_FRAMERATE: f64 = 60.0`. -/
def MIN_FRAMERATE : ℚ := 60

/-- `const MIN_TABULATION_SIZE: usize = 257`. -/
def MIN_TABULATION_SIZE : ℕ := 257

/-- `fn calc_tabulation_size(a: f64, l: f64) -> usize`.
Rust's `f.ceil() as usize` truncates the (already integral) value toward zero
and saturates negative values to `0`; on finite inputs this is `Int.toNat ∘ ⌈·⌉`.
Caveat: at `a = 0` with `l > 0` the f64 formula is `+inf`, the saturating cast
yields `usize::MAX` and the subsequent grid allocation panics — ℚ's `x/0 = 0`
convention cannot model that failure, so theorems about the sizer carry an
`a ≠ 0` (or `0 < a`) hypothesis. -/
def calc_tabulation_size (a l : ℚ) : ℕ :=
  max MIN_TABULATION_SIZE (Int.toNat ⌈2 * l / a * MIN_FRAMERATE + 1⌉)

/-- `enum UDiffType { Ut, Ux }`. -/
inductive UDiffType where
  | Ut : UDiffType
  | Ux : UDiffType
deriving DecidableEq

/-- `struct UDiff { ty: UDiffType, func: RealFunction }`. -/
structure UDiff where
  ty : UDiffType
  func : ℚ → ℚ

/-- `struct UDiffPairPoint { u_t: f64, u_x: f64 }`. -/
structure UDiffPairPoint where
  u_t : ℚ
  u_x : ℚ
deriving DecidableEq

/-- `#[derive(Default)]` on `UDiffPairPoint`: both fields zero. -/
instance : Inhabited UDiffPairPoint := ⟨⟨0, 0⟩⟩

/-- `struct Renderer` (the wasm-bound fields, in source order). -/
structure Renderer where
  left : UDiff
  right : UDiff
  floor : List UDiffPairPoint
  floor_buffer : List UDiffPairPoint
  a : ℚ
  l : ℚ
  rem_t : ℚ
  cur_t : ℚ

/-- `Renderer::generate_floor`: tabulate the two initial-condition callables at
`n = calc_tabulation_size a l` evenly spaced positions `x_i = i/(n-1)·l`. -/
def generate_floor (bottom_u_x bottom_u_t : ℚ → ℚ) (a l : ℚ) :
    List UDiffPairPoint :=
  let n := calc_tabulation_size a l
  (List.range n).map fun (i : ℕ) =>
    let x := (i : ℚ) / ((n - 1 : ℕ) : ℚ) * l
    { u_t := bottom_u_t x, u_x := bottom_u_x x }

/-- `Renderer::new`: generates the floor, then a zero-initialized scratch
buffer of the same length (`floor_buffer.resize(floor.len(), Cell::default())`
on an empty `Vec`). No validation of `a` or `l` is performed. -/
def Renderer.new (left right : UDiff) (bottom_u_x bottom_u_t : ℚ → ℚ)
    (a l : ℚ) : Renderer :=
  let floor := generate_floor bottom_u_x bottom_u_t a l
  { left := left
    right := right
    floor := floor
    floor_buffer := List.replicate floor.length default
    a := a
    l := l
    rem_t := 0
    cur_t := 0 }

/-- `Vec::resize(new_len, Default::default())`: truncate when shrinking,
pad with the default element when growing. -/
def vecResize (xs : List UDiffPairPoint) (n : ℕ) : List UDiffPairPoint :=
  if n ≤ xs.length then xs.take n
  else xs ++ List.replicate (n - xs.length) default

/-- `Renderer::reset`: stores the new `a`, `l`, regenerates the floor and
resizes the scratch buffer; `rem_t`, `cur_t`, `left`, `right` are untouched.
No validation of `a` or `l` is performed. -/
def Renderer.reset (r : Renderer) (bottom_u_x bottom_u_t : ℚ → ℚ)
    (a l : ℚ) : Renderer :=
  let floor := generate_floor bottom_u_x bottom_u_t a l
  { r with
    a := a
    l := l
    floor := floor
    floor_buffer := vecResize r.floor_buffer floor.length }

/-- `Renderer::step_dt`: `2.0 * self.l / (self.a * (self.floor.len() - 1) as f64)`. -/
def Renderer.step_dt (r : Renderer) : ℚ :=
  2 * r.l / (r.a * ((r.floor.length - 1 : ℕ) : ℚ))

/-- `Renderer::calc_point`: the interior characteristic update from the two
immediate neighbors. -/
def Renderer.calc_point (r : Renderer) (left right : UDiffPairPoint) :
    UDiffPairPoint :=
  let a := r.a
  { u_x := (left.u_x - left.u_t / a + right.u_x + right.u_t / a) / 2
    u_t := (left.u_t - left.u_x * a + right.u_t + right.u_x * a) / 2 }

/-- `Renderer::left_calc_point`: left boundary evaluation at time `t` from the
old interior neighbor `point`. -/
def Renderer.left_calc_point (r : Renderer) (t : ℚ) (point : UDiffPairPoint) :
    UDiffPairPoint :=
  let u_diff := r.left.func t
  match r.left.ty with
  | UDiffType.Ut =>
      let u_t := u_diff
      { u_x := point.u_x - (u_t - point.u_t) / r.a
        u_t := u_t }
  | UDiffType.Ux =>
      let u_x := u_diff
      { u_t := point.u_t - (u_x - point.u_x) * r.a
        u_x := u_x }

/-- `Renderer::right_calc_point`: right boundary evaluation at time `t` from
the old interior neighbor `point` (signs mirrored w.r.t. the left end). -/
def Renderer.right_calc_point (r : Renderer) (t : ℚ) (point : UDiffPairPoint) :
    UDiffPairPoint :=
  let u_diff := r.right.func t
  match r.right.ty with
  | UDiffType.Ut =>
      let u_t := u_diff
      { u_x := point.u_x + (u_t - point.u_t) / r.a
        u_t := u_t }
  | UDiffType.Ux =>
      let u_x := u_diff
      { u_t := point.u_t + (u_x - point.u_x) * r.a
        u_x := u_x }

/-- `<Renderer as Iterator>::next`: one time step.
1. `cur_t += step_dt` (so boundary points use the NEW time);
2. `floor_buffer[0] = left_calc_point(cur_t, floor[1])`;
3. for `i` in `1..n-1`: `floor_buffer[i] = calc_point(floor[i-1], floor[i+1])`
   (the `zip(floor.iter(), floor.iter().skip(2))` pipeline, of length `n-2`);
4. `floor_buffer[n-1] = right_calc_point(cur_t, floor[n-2])`;
5. `mem::swap(floor, floor_buffer)`: the freshly written array becomes
   current, the old current array becomes the scratch buffer.
The scratch buffer's old contents are fully overwritten (the code
`debug_assert_eq!`s the two lengths), so the new floor depends only on the old
floor.  Out-of-range indexing (`n < 2`, a Rust panic) is modelled by `getD`;
theorems assume `2 ≤ n`. -/
def Renderer.next (r : Renderer) : Renderer :=
  let t := r.cur_t + r.step_dt
  let n := r.floor.length
  let newFloor :=
    r.left_calc_point t (r.floor.getD 1 default) ::
      ((r.floor.zip (r.floor.drop 2)).map fun p => r.calc_point p.1 p.2) ++
        [r.right_calc_point t (r.floor.getD (n - 2) default)]
  { r with
    cur_t := t
    floor := newFloor
    floor_buffer := r.floor }

/-- Rust's `f64 %` is the IEEE remainder with truncated (toward-zero)
quotient: `x - y * trunc(x / y)`. -/
def truncQ (q : ℚ) : ℤ :=
  if 0 ≤ q then ⌊q⌋ else ⌈q⌉

/-- `dt % step_dt` on `f64`, in exact arithmetic. -/
def fmodQ (x y : ℚ) : ℚ :=
  x - y * (truncQ (x / y) : ℚ)

/-- The number of `next` invocations `advance` performs:
`Iterator::nth(k)` invokes `next` exactly `k + 1` times, and
`(dt / step_dt) as usize` is the saturating toward-zero cast, which for every
finite `q` equals `Int.toNat ⌊q⌋`. -/
def advanceStepCount (dt step_dt : ℚ) : ℕ :=
  (⌊dt / step_dt⌋).toNat + 1

/-- `Renderer::advance`: sets `rem_t = dt % step_dt`, then runs
`self.nth((dt / step_dt) as usize)`, i.e. `advanceStepCount dt step_dt`
invocations of `next` (`nth` never returns `None` here since `next` always
returns `Some(())`, so the `unreachable!()` arm is dead). -/
def Renderer.advance (r : Renderer) (dt : ℚ) : Renderer :=
  let step_dt := r.step_dt
  Renderer.next^[advanceStepCount dt step_dt] { r with rem_t := fmodQ dt step_dt }

/-- A small concrete renderer used to exercise the theorems: three zero
points, both ends `Ut` with the zero function, `a = l = 1`; its `step_dt`
is `2·1/(1·2) = 1`. -/
def tinyRenderer : Renderer :=
  { left := ⟨UDiffType.Ut, fun _ => 0⟩
    right := ⟨UDiffType.Ut, fun _ => 0⟩
    floor := [default, default, default]
    floor_buffer := [default, default, default]
    a := 1
    l := 1
    rem_t := 0
    cur_t := 0 }

/-! Helper lemmas about one step (`next`). -/

theorem next_left (r : Renderer) : r.next.left = r.left := rfl

theorem next_right (r : Renderer) : r.next.right = r.right := rfl

theorem next_a (r : Renderer) : r.next.a = r.a := rfl

theorem next_l (r : Renderer) : r.next.l = r.l := rfl

theorem next_rem_t (r : Renderer) : r.next.rem_t = r.rem_t := rfl

theorem next_cur_t (r : Renderer) : r.next.cur_t = r.cur_t + r.step_dt := rfl

theorem next_floor_buffer (r : Renderer) : r.next.floor_buffer = r.floor := rfl

theorem next_floor_eq (r : Renderer) :
    r.next.floor =
      r.left_calc_point (r.cur_t + r.step_dt) (r.floor.getD 1 default) ::
        ((r.floor.zip (r.floor.drop 2)).map fun p => r.calc_point p.1 p.2) ++
          [r.right_calc_point (r.cur_t + r.step_dt)
            (r.floor.getD (r.floor.length - 2) default)] := rfl

theorem next_floor_length (r : Renderer) (h : 2 ≤ r.floor.length) :
    r.next.floor.length = r.floor.length := by
  rw [next_floor_eq]
  simp only [List.length_cons, List.length_append, List.length_map,
    List.length_zip, List.length_drop, List.length_singleton, List.length_nil]
  omega

theorem next_step_dt (r : Renderer) (h : 2 ≤ r.floor.length) :
    r.next.step_dt = r.step_dt := by
  rw [Renderer.step_dt, Renderer.step_dt, next_a, next_l, next_floor_length r h]

theorem iterate_next_props (k : ℕ) (r : Renderer) (h : 2 ≤ r.floor.length) :
    (Renderer.next^[k] r).floor.length = r.floor.length ∧
      (Renderer.next^[k] r).cur_t = r.cur_t + (k : ℚ) * r.step_dt ∧
      (Renderer.next^[k] r).rem_t = r.rem_t := by
  induction k generalizing r with
  | zero => simp
  | succ k ih =>
    have h2 : 2 ≤ r.next.floor.length := by rw [next_floor_length r h]; exact h
    obtain ⟨hl, hc, hm⟩ := ih r.next h2
    rw [Function.iterate_succ_apply]
    refine ⟨?_, ?_, ?_⟩
    · rw [hl, next_floor_length r h]
    · rw [hc, next_cur_t, next_step_dt r h]
      push_cast
      ring
    · rw [hm, next_rem_t]

theorem next_floor_head (r : Renderer) :
    r.next.floor.getD 0 default =
      r.left_calc_point (r.cur_t + r.step_dt) (r.floor.getD 1 default) := rfl

theorem next_floor_last (r : Renderer) (h : 2 ≤ r.floor.length) :
    r.next.floor.getD (r.floor.length - 1) default =
      r.right_calc_point (r.cur_t + r.step_dt)
        (r.floor.getD (r.floor.length - 2) default) := by
  obtain ⟨m, hm⟩ : ∃ m, r.floor.length = m + 2 := ⟨r.floor.length - 2, by omega⟩
  rw [next_floor_eq]
  have hmid : ((r.floor.zip (r.floor.drop 2)).map
      fun p => r.calc_point p.1 p.2).length = m := by
    simp only [List.length_map, List.length_zip, List.length_drop, hm]
    omega
  rw [hm]
  show (_ :: _).getD (m + 1) default = _
  rw [List.getD_cons_succ]
  simp only [List.append_eq]
  rw [List.getD_append_right _ _ _ _ hmid.le, hmid, Nat.sub_self,
    List.getD_cons_zero]

theorem next_floor_interior (r : Renderer) (j : ℕ) (h2 : j < r.floor.length - 2) :
    r.next.floor.getD (j + 1) default =
      r.calc_point (r.floor.getD j default) (r.floor.getD (j + 2) default) := by
  have hn : 3 ≤ r.floor.length := by omega
  have hmidlen : ((r.floor.zip (r.floor.drop 2)).map
      fun p => r.calc_point p.1 p.2).length = r.floor.length - 2 := by
    simp only [List.length_map, List.length_zip, List.length_drop]
    omega
  rw [next_floor_eq]
  show (_ :: _).getD (j + 1) default = _
  rw [List.getD_cons_succ]
  simp only [List.append_eq]
  rw [List.getD_append _ _ _ j (by omega)]
  rw [List.getD_eq_getElem _ _ (by omega)]
  simp only [List.getElem_map, List.getElem_zip, List.getElem_drop]
  rw [List.getD_eq_getElem r.floor default (by omega),
    List.getD_eq_getElem r.floor default (by omega)]
  simp only [Nat.add_comm]

/-- C5: for every interior index `i` (`1 ≤ i ≤ n-2`), one step writes the new
StatePoint at `i` from the current array's immediate neighbors
`left = S[i-1]` and `right = S[i+1]` as
`u_x' = (left.u_x - left.u_t/a + right.u_x + right.u_t/a)/2` and
`u_t' = (left.u_t - left.u_x·a + right.u_t + right.u_x·a)/2`. -/
theorem interior_update (r : Renderer) (i : ℕ) (h1 : 1 ≤ i)
    (h2 : i ≤ r.floor.length - 2) :
    r.next.floor.getD i default =
      { u_x := ((r.floor.getD (i - 1) default).u_x
                  - (r.floor.getD (i - 1) default).u_t / r.a
                  + (r.floor.getD (i + 1) default).u_x
                  + (r.floor.getD (i + 1) default).u_t / r.a) / 2
        u_t := ((r.floor.getD (i - 1) default).u_t
                  - (r.floor.getD (i - 1) default).u_x * r.a
                  + (r.floor.getD (i + 1) default).u_t
                  + (r.floor.getD (i + 1) default).u_x * r.a) / 2 } := by
  obtain ⟨j, rfl⟩ : ∃ j, i = j + 1 := ⟨i - 1, by omega⟩
  rw [next_floor_interior r j (by omega)]
  rfl

/-- C5 witness: in the three-point renderer every quantity is zero, and the
single interior point indeed becomes `(0 - 0/1 + 0 + 0/1)/2 = 0` in both
components. -/
theorem interior_update_witness :
    1 ≤ 1 ∧ 1 ≤ tinyRenderer.floor.length - 2 ∧
    tinyRenderer.next.floor.getD 1 default = { u_t := 0, u_x := 0 } :=
  ⟨le_refl 1, by norm_num [tinyRenderer],
    (interior_update tinyRenderer 1 (le_refl 1) (by norm_num [tinyRenderer])).trans
      (by norm_num [tinyRenderer, default, UDiffPairPoint.mk.injEq])⟩

/-- C4: after one step at new time `t = cur_t + Δt`, each end's new StatePoint
is produced by the boundary evaluator from the old interior neighbor
(`S[1]` for the left end, `S[n-2]` for the right end): for
`TimeDerivativeSpecified` (`Ut`) the new point is
`(u_t = f(t), u_x = p.u_x ∓ (f(t) - p.u_t)/a)` (minus left, plus right), and
for `SpaceDerivativeSpecified` (`Ux`) it is
`(u_t = p.u_t ∓ (f(t) - p.u_x)·a, u_x = f(t))`; in particular the prescribed
derivative component equals `f(t)` exactly. -/
theorem boundary_exactness (r : Renderer) (t : ℚ) (p q : UDiffPairPoint)
    (hn : 2 ≤ r.floor.length) (ht : t = r.cur_t + r.step_dt)
    (hp : p = r.floor.getD 1 default)
    (hq : q = r.floor.getD (r.floor.length - 2) default) :
    (r.left.ty = UDiffType.Ut → r.next.floor.getD 0 default =
        { u_t := r.left.func t, u_x := p.u_x - (r.left.func t - p.u_t) / r.a }) ∧
    (r.left.ty = UDiffType.Ux → r.next.floor.getD 0 default =
        { u_t := p.u_t - (r.left.func t - p.u_x) * r.a, u_x := r.left.func t }) ∧
    (r.right.ty = UDiffType.Ut → r.next.floor.getD (r.floor.length - 1) default =
        { u_t := r.right.func t, u_x := q.u_x + (r.right.func t - q.u_t) / r.a }) ∧
    (r.right.ty = UDiffType.Ux → r.next.floor.getD (r.floor.length - 1) default =
        { u_t := q.u_t + (r.right.func t - q.u_x) * r.a, u_x := r.right.func t }) := by
  subst ht hp hq
  refine ⟨fun hty => ?_, fun hty => ?_, fun hty => ?_, fun hty => ?_⟩
  · rw [next_floor_head]
    simp [Renderer.left_calc_point, hty]
  · rw [next_floor_head]
    simp [Renderer.left_calc_point, hty]
  · rw [next_floor_last r hn]
    simp [Renderer.right_calc_point, hty]
  · rw [next_floor_last r hn]
    simp [Renderer.right_calc_point, hty]

/-- C4 witness: in the three-point renderer the left end is `Ut` with the
zero function; after one step the new left point is
`(u_t = f(1) = 0, u_x = 0 - (f(1) - 0)/1 = 0)`. -/
theorem boundary_exactness_witness :
    tinyRenderer.next.floor.getD 0 default =
      { u_t := tinyRenderer.left.func 1,
        u_x := (0 : ℚ) - (tinyRenderer.left.func 1 - 0) / tinyRenderer.a } :=
  (boundary_exactness tinyRenderer 1 ⟨0, 0⟩ ⟨0, 0⟩ (by norm_num [tinyRenderer])
    (by norm_num [tinyRenderer, Renderer.step_dt]) rfl rfl).1 rfl

theorem next_const (r : Renderer) (ct cx : ℚ)
    (hn : 2 ≤ r.floor.length)
    (hfl : ∀ p ∈ r.floor, p = ⟨ct, cx⟩)
    (hlt : r.left.ty = UDiffType.Ut → ∀ s, r.left.func s = ct)
    (hlx : r.left.ty = UDiffType.Ux → ∀ s, r.left.func s = cx)
    (hrt : r.right.ty = UDiffType.Ut → ∀ s, r.right.func s = ct)
    (hrx : r.right.ty = UDiffType.Ux → ∀ s, r.right.func s = cx) :
    ∀ p ∈ r.next.floor, p = ⟨ct, cx⟩ := by
  have h1 : r.floor.getD 1 default = ⟨ct, cx⟩ :=
    hfl _ (by rw [List.getD_eq_getElem _ _ (by omega)]; exact List.getElem_mem _)
  have h2 : r.floor.getD (r.floor.length - 2) default = ⟨ct, cx⟩ :=
    hfl _ (by rw [List.getD_eq_getElem _ _ (by omega)]; exact List.getElem_mem _)
  intro p hp
  rw [next_floor_eq] at hp
  rcases List.mem_append.mp hp with hp | hp
  · rcases List.mem_cons.mp hp with hp | hp
    · subst hp
      rw [h1]
      cases hty : r.left.ty
      · simp [Renderer.left_calc_point, hty, hlt hty, UDiffPairPoint.mk.injEq]
      · simp [Renderer.left_calc_point, hty, hlx hty, UDiffPairPoint.mk.injEq]
    · obtain ⟨⟨q1, q2⟩, hq, rfl⟩ := List.mem_map.mp hp
      obtain ⟨hq1, hq2⟩ := List.of_mem_zip hq
      rw [hfl _ hq1, hfl _ (List.mem_of_mem_drop hq2)]
      simp only [Renderer.calc_point, UDiffPairPoint.mk.injEq]
      refine ⟨by ring, by ring⟩
  · rw [List.mem_singleton.mp hp, h2]
    cases hty : r.right.ty
    · simp [Renderer.right_calc_point, hty, hrt hty, UDiffPairPoint.mk.injEq]
    · simp [Renderer.right_calc_point, hty, hrx hty, UDiffPairPoint.mk.injEq]

/-- C8: if every StatePoint equals the constant pair `(ct, cx)` and each end's
boundary function constantly returns the component its variant prescribes
(`ct` for `Ut`, `cx` for `Ux`), then any number `k` of repeated steps leaves
every StatePoint equal to `(ct, cx)`. -/
theorem steady_state (r : Renderer) (ct cx : ℚ) (k : ℕ)
    (hn : 2 ≤ r.floor.length)
    (hfl : ∀ p ∈ r.floor, p = ⟨ct, cx⟩)
    (hlt : r.left.ty = UDiffType.Ut → ∀ s, r.left.func s = ct)
    (hlx : r.left.ty = UDiffType.Ux → ∀ s, r.left.func s = cx)
    (hrt : r.right.ty = UDiffType.Ut → ∀ s, r.right.func s = ct)
    (hrx : r.right.ty = UDiffType.Ux → ∀ s, r.right.func s = cx) :
    ∀ p ∈ (Renderer.next^[k] r).floor, p = ⟨ct, cx⟩ := by
  induction k generalizing r with
  | zero => exact hfl
  | succ k ih =>
    rw [Function.iterate_succ_apply]
    have h2 : 2 ≤ r.next.floor.length := by rw [next_floor_length r hn]; exact hn
    exact ih r.next h2 (next_const r ct cx hn hfl hlt hlx hrt hrx)
      (by rw [next_left]; exact hlt) (by rw [next_left]; exact hlx)
      (by rw [next_right]; exact hrt) (by rw [next_right]; exact hrx)

/-- C8 witness: the all-zero three-point renderer with zero boundary
functions is unchanged by two steps. -/
theorem steady_state_witness :
    2 ≤ tinyRenderer.floor.length ∧
      ∀ p ∈ (Renderer.next^[2] tinyRenderer).floor, p = ⟨0, 0⟩ :=
  ⟨by norm_num [tinyRenderer],
    steady_state tinyRenderer 0 0 2 (by norm_num [tinyRenderer])
      (by intro p hp; simp [tinyRenderer] at hp; rw [hp]; rfl)
      (fun _ _ => rfl) (fun _ _ => rfl) (fun _ _ => rfl) (fun _ _ => rfl)⟩

/-- C9: for every valid state whose current and scratch arrays both have
length `n ≥ 2`, one step preserves both lengths at `n`, the buffers merely
swap roles (the old current array becomes the new scratch buffer), and
`cur_t` increases by exactly `Δt = 2l/(a·(n-1))`. -/
theorem step_preserves_state (r : Renderer) (n : ℕ) (hf : r.floor.length = n)
    (hb : r.floor_buffer.length = n) (hn : 2 ≤ n) :
    r.next.floor.length = n ∧ r.next.floor_buffer.length = n ∧
      r.next.floor_buffer = r.floor ∧
      r.next.cur_t = r.cur_t + 2 * r.l / (r.a * ((n - 1 : ℕ) : ℚ)) := by
  refine ⟨?_, ?_, next_floor_buffer r, ?_⟩
  · rw [next_floor_length r (by omega), hf]
  · rw [next_floor_buffer, hf]
  · rw [next_cur_t, Renderer.step_dt, hf]

/-- C9 witness: the three-point renderer with `a = l = 1` steps from
`cur_t = 0` to `cur_t = 0 + 2·1/(1·2)` with both lengths staying 3. -/
theorem step_preserves_state_witness :
    tinyRenderer.floor.length = 3 ∧ tinyRenderer.floor_buffer.length = 3 ∧
      2 ≤ 3 ∧
      (tinyRenderer.next.floor.length = 3 ∧
        tinyRenderer.next.floor_buffer.length = 3 ∧
        tinyRenderer.next.floor_buffer = tinyRenderer.floor ∧
        tinyRenderer.next.cur_t =
          tinyRenderer.cur_t +
            2 * tinyRenderer.l / (tinyRenderer.a * ((3 - 1 : ℕ) : ℚ))) :=
  ⟨rfl, rfl, by norm_num, step_preserves_state tinyRenderer 3 rfl rfl (by norm_num)⟩

/-- C6: for every a > 0 and L > 0 the grid sizer returns
`n = max(257, ⌈2L/a·60 + 1⌉)` (stated as an integer identity: the saturating
`as usize` cast is lossless because the ceiling is positive here); in
particular `n ≥ 257`. -/
theorem grid_sizer_formula (a l : ℚ) (ha : 0 < a) (hl : 0 < l) :
    (calc_tabulation_size a l : ℤ) = max 257 ⌈2 * l / a * 60 + 1⌉ ∧
      257 ≤ calc_tabulation_size a l := by
  have hx : (0 : ℚ) < 2 * l / a * 60 + 1 := by positivity
  have hc : (0 : ℤ) ≤ ⌈2 * l / a * 60 + 1⌉ := Int.ceil_nonneg hx.le
  constructor
  · simp only [calc_tabulation_size, MIN_FRAMERATE, MIN_TABULATION_SIZE]
    rw [Nat.cast_max, Int.toNat_of_nonneg hc]
    norm_num
  · simp only [calc_tabulation_size, MIN_TABULATION_SIZE]
    exact le_max_left _ _

/-- C6 witness: at a = 1, l = 1 the formula gives max(257, 121) = 257. -/
theorem grid_sizer_formula_witness :
    0 < (1 : ℚ) ∧ 0 < (1 : ℚ) ∧
      ((calc_tabulation_size 1 1 : ℤ) = max 257 ⌈2 * (1 : ℚ) / 1 * 60 + 1⌉ ∧
        257 ≤ calc_tabulation_size 1 1) :=
  ⟨by norm_num, by norm_num, grid_sizer_formula 1 1 (by norm_num) (by norm_num)⟩

/-- C7: for every a > 0 and L > 0 the induced time step
`Δt = 2L/(a·(n-1))` with `n = calc_tabulation_size a l` satisfies
`Δt ≤ 1/60`: at least 60 discrete steps per simulated second. -/
theorem step_dt_framerate_bound (a l : ℚ) (ha : 0 < a) (hl : 0 < l) :
    2 * l / (a * ((calc_tabulation_size a l - 1 : ℕ) : ℚ)) ≤ 1 / 60 := by
  have h0 : (0 : ℚ) ≤ 2 * l / a * 60 + 1 := by positivity
  have hx : 2 * l / a * 60 + 1 ≤ ((calc_tabulation_size a l : ℕ) : ℚ) := by
    have h2 : Int.toNat ⌈2 * l / a * 60 + 1⌉ ≤ calc_tabulation_size a l := by
      simp only [calc_tabulation_size, MIN_FRAMERATE]
      exact le_max_right _ _
    calc (2 * l / a * 60 + 1 : ℚ)
        ≤ ((⌈2 * l / a * 60 + 1⌉ : ℤ) : ℚ) := Int.le_ceil _
      _ = ((Int.toNat ⌈2 * l / a * 60 + 1⌉ : ℕ) : ℚ) := by
          exact_mod_cast (Int.toNat_of_nonneg (Int.ceil_nonneg h0)).symm
      _ ≤ _ := by exact_mod_cast h2
  have h257 : 257 ≤ calc_tabulation_size a l := by
    simp only [calc_tabulation_size, MIN_TABULATION_SIZE]
    exact le_max_left _ _
  have hcast : ((calc_tabulation_size a l - 1 : ℕ) : ℚ) =
      ((calc_tabulation_size a l : ℕ) : ℚ) - 1 := by
    rw [Nat.cast_sub (by omega), Nat.cast_one]
  have hstep : 2 * l / a * 60 ≤ ((calc_tabulation_size a l : ℕ) : ℚ) - 1 := by
    linarith
  have hden : 120 * l ≤ a * (((calc_tabulation_size a l : ℕ) : ℚ) - 1) := by
    have h := mul_le_mul_of_nonneg_left hstep ha.le
    have heq : a * (2 * l / a * 60) = 120 * l := by
      field_simp
      ring
    linarith
  have hpos : 0 < a * (((calc_tabulation_size a l : ℕ) : ℚ) - 1) := by
    have hl120 : (0 : ℚ) < 120 * l := by positivity
    linarith
  rw [hcast, div_le_div_iff₀ hpos (by norm_num : (0 : ℚ) < 60)]
  linarith

/-- C7 witness: at a = 1, l = 1: Δt = 2/256 = 1/128 ≤ 1/60. -/
theorem step_dt_framerate_bound_witness :
    0 < (1 : ℚ) ∧ 0 < (1 : ℚ) ∧
      2 * (1 : ℚ) / (1 * ((calc_tabulation_size 1 1 - 1 : ℕ) : ℚ)) ≤ 1 / 60 :=
  ⟨by norm_num, by norm_num,
    step_dt_framerate_bound 1 1 (by norm_num) (by norm_num)⟩

theorem generate_floor_length (fx ft : ℚ → ℚ) (a l : ℚ) :
    (generate_floor fx ft a l).length = calc_tabulation_size a l := by
  unfold generate_floor
  rw [List.length_map, List.length_range]

/-- C3 counterexample: at a = 1, l = 1 the grid has n = 257 points, so the
spatial spacing Δx = l/(n-1) = 1/256 while a·Δt = 1·(2·1/(1·(n-1))) = 2/256:
the spacing does NOT equal a·Δt. -/
theorem grid_spacing_cex :
    (1 : ℚ) / ((calc_tabulation_size 1 1 - 1 : ℕ) : ℚ) ≠
      1 * (2 * 1 / (1 * ((calc_tabulation_size 1 1 - 1 : ℕ) : ℚ))) := by
  have h : calc_tabulation_size 1 1 = 257 := by
    simp only [calc_tabulation_size, MIN_FRAMERATE, MIN_TABULATION_SIZE]
    norm_num
  rw [h]
  norm_num

/-- C3 (amended): for every a > 0 and L > 0, with n the grid size produced by
the grid sizer, the spatial spacing Δx = L/(n-1) equals a·Δt/2 — half of
a·Δt — where Δt = 2L/(a·(n-1)) is the discrete time step (equivalently
a·Δt = 2·Δx). -/
theorem grid_spacing_half (a l : ℚ) (ha : 0 < a) (hl : 0 < l) :
    l / ((calc_tabulation_size a l - 1 : ℕ) : ℚ) =
      a * (2 * l / (a * ((calc_tabulation_size a l - 1 : ℕ) : ℚ))) / 2 := by
  have h257 : 257 ≤ calc_tabulation_size a l := by
    simp only [calc_tabulation_size, MIN_TABULATION_SIZE]
    exact le_max_left _ _
  have hcast : ((calc_tabulation_size a l - 1 : ℕ) : ℚ) =
      ((calc_tabulation_size a l : ℕ) : ℚ) - 1 := by
    rw [Nat.cast_sub (by omega), Nat.cast_one]
  have h257q : (257 : ℚ) ≤ ((calc_tabulation_size a l : ℕ) : ℚ) := by
    exact_mod_cast h257
  have hd : ((calc_tabulation_size a l : ℕ) : ℚ) - 1 ≠ 0 := by linarith
  rw [hcast]
  field_simp
  ring

/-- C3 (amended) witness: at a = 1, l = 1: 1/256 = 1·(2/256)/2. -/
theorem grid_spacing_half_witness :
    0 < (1 : ℚ) ∧ 0 < (1 : ℚ) ∧
      (1 : ℚ) / ((calc_tabulation_size 1 1 - 1 : ℕ) : ℚ) =
        1 * (2 * 1 / (1 * ((calc_tabulation_size 1 1 - 1 : ℕ) : ℚ))) / 2 :=
  ⟨by norm_num, by norm_num, grid_spacing_half 1 1 (by norm_num) (by norm_num)⟩

/-- C2 counterexample: construction with a = -1 ≤ 0 (l = 1) is NOT rejected
before grid generation: `Renderer::new` succeeds, produces a 257-point grid
(the sizer's saturating cast clamps the negative formula value to 0, so the
257 minimum wins) and stores a = -1 unchanged. -/
theorem no_validation_cex :
    (Renderer.new ⟨UDiffType.Ut, fun _ => 0⟩ ⟨UDiffType.Ut, fun _ => 0⟩
        (fun _ => 0) (fun _ => 0) (-1) 1).floor.length = 257 ∧
      (Renderer.new ⟨UDiffType.Ut, fun _ => 0⟩ ⟨UDiffType.Ut, fun _ => 0⟩
        (fun _ => 0) (fun _ => 0) (-1) 1).a = -1 := by
  constructor
  · have hv : (2 * (1 : ℚ) / (-1) * MIN_FRAMERATE + 1) = ((-119 : ℤ) : ℚ) := by
      norm_num [MIN_FRAMERATE]
    have h : calc_tabulation_size (-1) 1 = 257 := by
      simp only [calc_tabulation_size, MIN_TABULATION_SIZE, hv, Int.ceil_intCast]
      decide
    exact (generate_floor_length (fun _ => 0) (fun _ => 0) (-1) 1).trans h
  · rfl

/-- C2 (amended): neither `new` nor `reset` validates a or l: for every
`a ≠ 0` — in particular every `a < 0` and every `l ≤ 0` — the call succeeds,
builds a grid of `calc_tabulation_size a l` points (the sizer clamps the grid
SIZE to the 257 minimum when the formula value is non-positive) and stores a
and l unchanged: nothing is rejected before grid generation and the
parameters are never clamped.  (The sole failing input, `a = 0` with
`l > 0`, fails by an allocation panic on the saturated `usize::MAX` size
during generation — not by a parameter check — and lies outside this
exact-rational model, hence the `a ≠ 0` hypothesis.) -/
theorem new_reset_no_validation (left right : UDiff) (fx ft : ℚ → ℚ)
    (a l : ℚ) (r : Renderer) (ha : a ≠ 0) :
    (Renderer.new left right fx ft a l).floor.length = calc_tabulation_size a l ∧
      (Renderer.new left right fx ft a l).a = a ∧
      (Renderer.new left right fx ft a l).l = l ∧
      (r.reset fx ft a l).floor.length = calc_tabulation_size a l ∧
      (r.reset fx ft a l).a = a ∧
      (r.reset fx ft a l).l = l :=
  ⟨generate_floor_length fx ft a l, rfl, rfl,
    generate_floor_length fx ft a l, rfl, rfl⟩

/-- C2 (amended) witness: at `a = -1 ≠ 0`, `l = 1`, both `new` and a `reset`
of the three-point renderer produce a `calc_tabulation_size (-1) 1`-point
grid and store the parameters unchanged. -/
theorem new_reset_no_validation_witness :
    (-1 : ℚ) ≠ 0 ∧
      ((Renderer.new ⟨UDiffType.Ut, fun _ => 0⟩ ⟨UDiffType.Ut, fun _ => 0⟩
            (fun _ => 0) (fun _ => 0) (-1) 1).floor.length =
          calc_tabulation_size (-1) 1 ∧
        (Renderer.new ⟨UDiffType.Ut, fun _ => 0⟩ ⟨UDiffType.Ut, fun _ => 0⟩
            (fun _ => 0) (fun _ => 0) (-1) 1).a = -1 ∧
        (Renderer.new ⟨UDiffType.Ut, fun _ => 0⟩ ⟨UDiffType.Ut, fun _ => 0⟩
            (fun _ => 0) (fun _ => 0) (-1) 1).l = 1 ∧
        (tinyRenderer.reset (fun _ => 0) (fun _ => 0) (-1) 1).floor.length =
          calc_tabulation_size (-1) 1 ∧
        (tinyRenderer.reset (fun _ => 0) (fun _ => 0) (-1) 1).a = -1 ∧
        (tinyRenderer.reset (fun _ => 0) (fun _ => 0) (-1) 1).l = 1) :=
  ⟨by norm_num,
    new_reset_no_validation ⟨UDiffType.Ut, fun _ => 0⟩ ⟨UDiffType.Ut, fun _ => 0⟩
      (fun _ => 0) (fun _ => 0) (-1) 1 tinyRenderer (by norm_num)⟩

/-- C10: `reset(bottom_u_x, bottom_u_t, a, l)` regenerates the state array
and updates a and l, but leaves the simulation clock fields `cur_t` and
`rem_t` (and both boundary conditions) unchanged: simulated time is not
restarted by a parameter reset. -/
theorem reset_keeps_clock (r : Renderer) (fx ft : ℚ → ℚ) (a l : ℚ) :
    (r.reset fx ft a l).cur_t = r.cur_t ∧
      (r.reset fx ft a l).rem_t = r.rem_t ∧
      (r.reset fx ft a l).a = a ∧
      (r.reset fx ft a l).l = l ∧
      (r.reset fx ft a l).floor = generate_floor fx ft a l ∧
      (r.reset fx ft a l).left = r.left ∧
      (r.reset fx ft a l).right = r.right :=
  ⟨rfl, rfl, rfl, rfl, rfl, rfl, rfl⟩

/-- C1 counterexample: for the three-point renderer `step_dt = 1`; calling
`advance` with `dt = 1/2 < step_dt` performs ONE invocation of `next`, not
zero: the internal step count is 1 (Rust's `Iterator::nth(0)` already calls
`next` once) and `cur_t` advances by one full step. -/
theorem advance_extra_step_cex :
    (1 / 2 : ℚ) < tinyRenderer.step_dt ∧
      advanceStepCount (1 / 2) tinyRenderer.step_dt = 1 ∧
      (tinyRenderer.advance (1 / 2)).cur_t =
        tinyRenderer.cur_t + tinyRenderer.step_dt ∧
      (tinyRenderer.advance (1 / 2)).cur_t ≠ tinyRenderer.cur_t := by
  have hs : tinyRenderer.step_dt = 1 := by
    norm_num [Renderer.step_dt, tinyRenderer]
  have hc : advanceStepCount (1 / 2) tinyRenderer.step_dt = 1 := by
    rw [hs]
    norm_num [advanceStepCount]
  have h3 : (tinyRenderer.advance (1 / 2)).cur_t =
      tinyRenderer.cur_t + tinyRenderer.step_dt := by
    rw [Renderer.advance, hc]
    norm_num [Renderer.next, Renderer.step_dt, tinyRenderer]
  refine ⟨by rw [hs]; norm_num, hc, h3, ?_⟩
  rw [h3, hs]
  norm_num [tinyRenderer]

/-- C1 (amended): for every `dt ≥ 0` (with `step_dt > 0` and `n ≥ 2`),
`advance(dt)` sets `rem_t` to `dt mod step_dt` and performs exactly
`⌊dt/step_dt⌋ + 1` invocations of the single-step engine `next` — one more
than the claimed `⌊dt/step_dt⌋`, because Rust's `Iterator::nth(k)` consumes
`k + 1` elements; accordingly `cur_t` grows by that count times `step_dt`,
and when `dt < step_dt` exactly one step (not zero) is performed. -/
theorem advance_steps_and_rem (r : Renderer) (dt : ℚ) (h0 : 0 ≤ dt)
    (hs : 0 < r.step_dt) (hn : 2 ≤ r.floor.length) :
    (r.advance dt).rem_t = dt - r.step_dt * ((⌊dt / r.step_dt⌋ : ℤ) : ℚ) ∧
      advanceStepCount dt r.step_dt = (⌊dt / r.step_dt⌋).toNat + 1 ∧
      (r.advance dt).cur_t =
        r.cur_t + ((advanceStepCount dt r.step_dt : ℕ) : ℚ) * r.step_dt ∧
      (dt < r.step_dt → advanceStepCount dt r.step_dt = 1) := by
  have hq : 0 ≤ dt / r.step_dt := div_nonneg h0 hs.le
  have hiter := iterate_next_props (advanceStepCount dt r.step_dt)
    { r with rem_t := fmodQ dt r.step_dt } hn
  refine ⟨?_, rfl, ?_, ?_⟩
  · show (Renderer.next^[advanceStepCount dt r.step_dt]
        { r with rem_t := fmodQ dt r.step_dt }).rem_t = _
    rw [hiter.2.2]
    show fmodQ dt r.step_dt = _
    rw [fmodQ, truncQ, if_pos hq]
  · show (Renderer.next^[advanceStepCount dt r.step_dt]
        { r with rem_t := fmodQ dt r.step_dt }).cur_t = _
    rw [hiter.2.1]
    rfl
  · intro hlt
    have hfl : ⌊dt / r.step_dt⌋ = 0 :=
      Int.floor_eq_zero_iff.mpr ⟨hq, (div_lt_one hs).mpr hlt⟩
    rw [advanceStepCount, hfl]
    rfl

/-- C1 (amended) witness: the three-point renderer with `dt = 1/2` and
`step_dt = 1`: `rem_t` becomes `1/2`, the step count is `⌊1/2⌋ + 1 = 1`,
and `cur_t` grows by `1·step_dt`. -/
theorem advance_steps_and_rem_witness :
    0 ≤ (1 / 2 : ℚ) ∧ 0 < tinyRenderer.step_dt ∧
      2 ≤ tinyRenderer.floor.length ∧
      ((tinyRenderer.advance (1 / 2)).rem_t =
          1 / 2 - tinyRenderer.step_dt *
            ((⌊(1 / 2 : ℚ) / tinyRenderer.step_dt⌋ : ℤ) : ℚ) ∧
        advanceStepCount (1 / 2) tinyRenderer.step_dt =
          (⌊(1 / 2 : ℚ) / tinyRenderer.step_dt⌋).toNat + 1 ∧
        (tinyRenderer.advance (1 / 2)).cur_t =
          tinyRenderer.cur_t +
            ((advanceStepCount (1 / 2) tinyRenderer.step_dt : ℕ) : ℚ) *
              tinyRenderer.step_dt ∧
        ((1 / 2 : ℚ) < tinyRenderer.step_dt →
          advanceStepCount (1 / 2) tinyRenderer.step_dt = 1)) :=
  ⟨by norm_num, by norm_num [Renderer.step_dt, tinyRenderer],
    by norm_num [tinyRenderer],
    advance_steps_and_rem tinyRenderer (1 / 2) (by norm_num)
      (by norm_num [Renderer.step_dt, tinyRenderer])
      (by norm_num [tinyRenderer])⟩
